import Mathlib

/-!
Shallow embedding of `palp.py`, an automatic label placement library.

The program works with Python floats; here every float is embedded as a
rational number, so all arithmetic is exact and executable.  The data model
(`Point2D`, `Label`, `Rectangle`, `Layout`) and all operations
(`get_overlap`, `Rectangle.overlap_with`, `Rectangle.is_empty`,
`Layout.get_cost`, `Layout.get_unknowns`, `Layout.adjust_unknown`,
`Layout.restore_unknown` and `Layout.anneal`) are translated directly from
the source.  Python's in-place mutation of the `Layout` becomes explicit
state passing: each mutating method returns the updated `Layout`.
-/

/-- An (x, y) pair.  The source imports `Point2D` from the external
`point2d` library; only its coordinates and Euclidean distance are used. -/
structure Point2D where
  x : ℚ
  y : ℚ
deriving DecidableEq

instance : Inhabited Point2D := ⟨⟨0, 0⟩⟩

/-- A Label defines a label to be placed (also reused for keepouts). -/
structure Label where
  optimal : Point2D
  location : Point2D
  width : ℚ
  height : ℚ
  text : String
deriving DecidableEq

instance : Inhabited Label := ⟨⟨default, default, 0, 0, ""⟩⟩

/-- `Label.__init__`: the movable `location` starts as a copy of the
immutable `optimal` anchor. -/
def Label.make (optimal : Point2D) (width height : ℚ) (text : String) : Label :=
  { optimal := optimal, location := optimal, width := width, height := height,
    text := text }

/-- A Rectangle defines a rectangular region. -/
structure Rectangle where
  bottom_left : Point2D
  top_right : Point2D
deriving DecidableEq

/-- The value `get_overlap(a, b, c, d)` returns once its asserts pass:
`max(0, min(b - c, d - a))`. -/
def get_overlap (a b c d : ℚ) : ℚ :=
  max 0 (min (b - c) (d - a))

/-- Python `get_overlap` with its two `assert` statements made explicit:
`none` models an assertion failure (`a > b` or `c > d`); on valid interval
bounds the function returns normally with `some` of the computed value. -/
def get_overlapChecked (a b c d : ℚ) : Option ℚ :=
  if a ≤ b then
    if c ≤ d then some (get_overlap a b c d)
    else none
  else none

/-- `Label.get_rectangle`: the rectangle derived from the current location
and the fixed width and height. -/
def Label.get_rectangle (self : Label) : Rectangle :=
  { bottom_left := ⟨self.location.x - self.width / 2,
                    self.location.y - self.height / 2⟩,
    top_right := ⟨self.location.x + self.width / 2,
                  self.location.y + self.height / 2⟩ }

/-- `Rectangle.overlap_with`: the overlap distance with another Rectangle,
the minimum of the x-axis overlap and the y-axis overlap. -/
def Rectangle.overlap_with (self other : Rectangle) : ℚ :=
  min (get_overlap self.bottom_left.x self.top_right.x
        other.bottom_left.x other.top_right.x)
      (get_overlap self.bottom_left.y self.top_right.y
        other.bottom_left.y other.top_right.y)

/-- `Rectangle.is_empty`: true iff `bottom_left.x >= top_right.x or
bottom_left.y >= top_right.y`. -/
def Rectangle.is_empty (self : Rectangle) : Bool :=
  decide (self.bottom_left.x ≥ self.top_right.x) ||
  decide (self.bottom_left.y ≥ self.top_right.y)

/-- Squared Euclidean distance between two points.  The external `point2d`
library's `distance_to` returns the square root of this quantity and
`Layout.get_cost` only ever uses `distance_to(...) ** 2`, which is this
rational value. -/
def Point2D.dist_sq (p q : Point2D) : ℚ :=
  (p.x - q.x) ^ 2 + (p.y - q.y) ^ 2

/-- A Layout contains all placement information: the list of labels and the
list of keepouts.  Python mutates one Layout object in place; here every
mutating operation returns the updated Layout. -/
structure Layout where
  labels : List Label
  keepouts : List Label
deriving DecidableEq

/-- Class constant: penalty factor on intersecting labels. -/
def Layout.penalty_intersection : ℚ := 1000

/-- Class constant: penalty factor on keepout zones. -/
def Layout.penalty_keepout : ℚ := 1000000

/-- Class constant: perturbation distance 1e-8 used by the gradient. -/
def Layout.delta : ℚ := 1 / 100000000

/-- `Layout.__init__`: the hard-coded example problem (four labels, one
keepout). -/
def Layout.init : Layout :=
  { labels := [Label.make ⟨1, 0⟩ 3 1 "one",
               Label.make ⟨2, 3 / 5⟩ 3 1 "two",
               Label.make ⟨3 / 2, 1⟩ 5 1 "three",
               Label.make ⟨-1, -1⟩ 2 2 "four"],
    keepouts := [Label.make ⟨-1 / 5, 1 / 2⟩ (3 / 5) (3 / 5) ""] }

/-- `Layout.get_cost`: fidelity term plus the label-label loop
(`for i in range(n): for j in range(i+1, n)`) plus the label-keepout loop
(`for i in range(n): for j in range(m)`).  The `verbose` parameter only
prints diagnostics and does not affect the returned value, so it is
omitted. -/
def Layout.get_cost (self : Layout) : ℚ :=
  ((self.labels.map (fun label => Point2D.dist_sq label.optimal label.location)).sum)
  + ((List.range self.labels.length).map (fun i =>
      ((List.range' (i + 1) (self.labels.length - (i + 1))).map (fun j =>
        Layout.penalty_intersection *
          (Rectangle.overlap_with (self.labels.getD i default).get_rectangle
            (self.labels.getD j default).get_rectangle) ^ 2)).sum)).sum
  + ((List.range self.labels.length).map (fun i =>
      ((List.range self.keepouts.length).map (fun j =>
        Layout.penalty_keepout *
          (Rectangle.overlap_with (self.labels.getD i default).get_rectangle
            (self.keepouts.getD j default).get_rectangle) ^ 2)).sum)).sum

/-- The cost exactly as the specification phrases it: squared anchor
displacement, plus `penalty_intersection` times squared overlap over every
unordered label pair `(i, j)` with `i < j`, plus `penalty_keepout` times
squared overlap over every (label, keepout) pair. -/
def Layout.cost_spec (self : Layout) : ℚ :=
  ((self.labels.map (fun label => Point2D.dist_sq label.optimal label.location)).sum)
  + (∑ p in (Finset.range self.labels.length ×ˢ
        Finset.range self.labels.length).filter (fun p => p.1 < p.2),
      Layout.penalty_intersection *
        (Rectangle.overlap_with (self.labels.getD p.1 default).get_rectangle
          (self.labels.getD p.2 default).get_rectangle) ^ 2)
  + (∑ i in Finset.range self.labels.length,
      ∑ j in Finset.range self.keepouts.length,
      Layout.penalty_keepout *
        (Rectangle.overlap_with (self.labels.getD i default).get_rectangle
          (self.keepouts.getD j default).get_rectangle) ^ 2)

/-- `Layout.get_unknowns`: the flattened list
`[x0, y0, x1, y1, ...]` of label locations. -/
def Layout.get_unknowns (self : Layout) : List ℚ :=
  self.labels.flatMap (fun label => [label.location.x, label.location.y])

/-- Update of the list element at one position (Python's in-place
`self.labels[k] = f(self.labels[k])`); out-of-range indices leave the list
unchanged, as they cannot occur in the program. -/
def listModify {α : Type} (f : α → α) : ℕ → List α → List α
  | _, [] => []
  | 0, l :: ls => f l :: ls
  | n + 1, l :: ls => l :: listModify f n ls

/-- `label.location.x += amount`. -/
def Label.addX (l : Label) (amount : ℚ) : Label :=
  { l with location := { l.location with x := l.location.x + amount } }

/-- `label.location.y += amount`. -/
def Label.addY (l : Label) (amount : ℚ) : Label :=
  { l with location := { l.location with y := l.location.y + amount } }

/-- `label.location.x = v`. -/
def Label.setX (l : Label) (v : ℚ) : Label :=
  { l with location := { l.location with x := v } }

/-- `label.location.y = v`. -/
def Label.setY (l : Label) (v : ℚ) : Label :=
  { l with location := { l.location with y := v } }

/-- `Layout.adjust_unknown`: even indices perturb `labels[index//2].location.x`,
odd indices perturb `labels[index//2].location.y`. -/
def Layout.adjust_unknown (self : Layout) (index : ℕ) (amount : ℚ) : Layout :=
  if index % 2 = 0 then
    { self with labels := listModify (fun l => l.addX amount) (index / 2) self.labels }
  else
    { self with labels := listModify (fun l => l.addY amount) (index / 2) self.labels }

/-- `Layout.restore_unknown`: writes `unknowns[index]` back into the
corresponding coordinate. -/
def Layout.restore_unknown (self : Layout) (index : ℕ) (unknowns : List ℚ) : Layout :=
  if index % 2 = 0 then
    { self with labels := listModify (fun l => l.setX (unknowns.getD index 0)) (index / 2) self.labels }
  else
    { self with labels := listModify (fun l => l.setY (unknowns.getD index 0)) (index / 2) self.labels }

/-- The gradient loop of `Layout.anneal` (lines computing `dcost`): for each
unknown, adjust by `+delta`, evaluate, restore, adjust by `-delta`,
evaluate, restore, and record the central difference.  Returns the final
state threaded through the loop together with the `dcost` list. -/
def Layout.dcost_loop (self : Layout) (unknowns : List ℚ) : Layout × List ℚ :=
  (List.range (self.labels.length * 2)).foldl
    (fun acc i =>
      let s1 := acc.1.adjust_unknown i Layout.delta
      let pos_cost := s1.get_cost
      let s2 := s1.restore_unknown i unknowns
      let s3 := s2.adjust_unknown i (-Layout.delta)
      let neg_cost := s3.get_cost
      let s4 := s3.restore_unknown i unknowns
      (s4, acc.2 ++ [(pos_cost - neg_cost) / (2 * Layout.delta)]))
    (self, [])

/-- `sum(x * x for x in l)`. -/
def sumSq (l : List ℚ) : ℚ :=
  (l.map (fun x => x * x)).sum

/-- `sum(x * y for x, y in zip(a, b))`. -/
def dotQ (a b : List ℚ) : ℚ :=
  (List.zipWith (fun x y => x * y) a b).sum

/-- Local constant of `anneal`: minimum distance to move. -/
def Layout.min_movement : ℚ := 1 / 1000000

/-- Local constant of `anneal`: maximum distance to move per iteration. -/
def Layout.max_movement : ℚ := 1 / 10

/-- Local constant of `anneal`: movement amount cutback. -/
def Layout.movement_cutback : ℚ := 1 / 2

/-- Local constant of `anneal`: maximum iterations. -/
def Layout.max_iteration_count : ℕ := 100

/-- `for i in range(len(unknowns)): self.adjust_unknown(i, movement * dcost[i])`. -/
def Layout.adjust_all (self : Layout) (unknowns dcost : List ℚ) (movement : ℚ) : Layout :=
  (List.range unknowns.length).foldl
    (fun s i => s.adjust_unknown i (movement * dcost.getD i 0)) self

/-- `for i in range(len(unknowns)): self.restore_unknown(i, unknowns)`. -/
def Layout.restore_all (self : Layout) (unknowns : List ℚ) : Layout :=
  (List.range unknowns.length).foldl
    (fun s i => s.restore_unknown i unknowns) self

/-- Outcome of the inner `while True` loop of `anneal`: either the trial
move was kept (break at the end of the loop body, state moved, movement
unchanged since the last cutback), or the state was restored and movement
was set to 0 (break inside the `new_cost >= starting_cost` branch). -/
inductive MoveResult where
  | committed (s : Layout) (movement : ℚ)
  | restored (s : Layout)
deriving DecidableEq

/-- The layout carried by a `MoveResult`. -/
def MoveResult.state : MoveResult → Layout
  | committed s _ => s
  | restored s => s

/-- The inner `while True` loop of `anneal`: apply `movement * dcost`, and
if the new cost is not lower than `starting_cost`, cut back the movement,
restore, and retry until the movement drops to `min_movement` (then stop
with movement 0) or the cost improves.  `none` means the supplied fuel ran
out before the loop finished; the loop in the source always terminates
because the movement halves on every retry. -/
def Layout.move_loop : ℕ → Layout → List ℚ → List ℚ → ℚ → ℚ → Option MoveResult
  | 0, _, _, _, _, _ => none
  | fuel + 1, self, unknowns, dcost, starting_cost, movement =>
    let s1 := self.adjust_all unknowns dcost movement
    let new_cost := s1.get_cost
    if starting_cost ≤ new_cost then
      let movement2 := movement * Layout.movement_cutback
      let s2 := s1.restore_all unknowns
      if movement2 ≤ Layout.min_movement then some (MoveResult.restored s2)
      else Layout.move_loop fuel s2 unknowns dcost starting_cost movement2
    else some (MoveResult.committed s1 movement)

/-- The tangency of `anneal`: the dot product of the last two stored
descent vectors, or 0 when fewer than two are stored. -/
def Layout.tangency_of (dv2 : List (List ℚ)) : ℚ :=
  if 2 ≤ dv2.length then
    dotQ (dv2.getD (dv2.length - 2) []) (dv2.getD (dv2.length - 1) [])
  else 0

/-- The movement-size update of `anneal`: cut back by `movement_cutback`
when `iteration > 0` and tangency < 0.9; double, capped at `max_movement`,
when tangency > 0.95. -/
def Layout.next_movement (iteration : ℕ) (tangency movement : ℚ) : ℚ :=
  let m1 := if 0 < iteration ∧ tangency < 9 / 10 then
      movement * Layout.movement_cutback else movement
  if 95 / 100 < tangency then min (m1 * 2) Layout.max_movement else m1

/-- One-step-at-a-time embedding of the `for iteration in range(100)` loop
of `Layout.anneal`.  `sqrtQ` abstracts `math.sqrt` (only invoked on the sum
of squared gradient components); `remaining` counts iterations left,
`iteration` is the Python loop variable.  Returns the final layout, or
`none` if the inner loop's fuel ran out. -/
def Layout.anneal_iter (sqrtQ : ℚ → ℚ) (innerFuel : ℕ) :
    ℕ → ℕ → Layout → ℚ → List (List ℚ) → Option Layout
  | 0, _, s, _, _ => some s
  | remaining + 1, iteration, s, movement, descent_vectors =>
    let starting_cost := s.get_cost
    let unknowns := s.get_unknowns
    let p := s.dcost_loop unknowns
    let dcost := p.2
    let dcost_norm := sqrtQ (sumSq dcost)
    if dcost_norm = 0 then some p.1
    else
      let d2 := dcost.map (fun x => -x / dcost_norm)
      let dv2 := descent_vectors ++ [d2]
      let tangency := Layout.tangency_of dv2
      let m2 := Layout.next_movement iteration tangency movement
      match Layout.move_loop innerFuel p.1 unknowns d2 starting_cost m2 with
      | none => none
      | some (MoveResult.committed s2 m3) =>
          if m3 ≤ Layout.min_movement then some s2
          else Layout.anneal_iter sqrtQ innerFuel remaining (iteration + 1) s2 m3 dv2
      | some (MoveResult.restored s2) =>
          if (0 : ℚ) ≤ Layout.min_movement then some s2
          else Layout.anneal_iter sqrtQ innerFuel remaining (iteration + 1) s2 0 dv2

/-- `Layout.anneal`: run up to `max_iteration_count` iterations starting
with `movement = max_movement` and no stored descent vectors. -/
def Layout.anneal (sqrtQ : ℚ → ℚ) (innerFuel : ℕ) (s : Layout) : Option Layout :=
  Layout.anneal_iter sqrtQ innerFuel Layout.max_iteration_count 0 s Layout.max_movement []

/-- Everything in a Label except its movable location. -/
def Label.fixed_part (l : Label) : Point2D × ℚ × ℚ × String :=
  (l.optimal, l.width, l.height, l.text)

/-- `t` agrees with `s` on everything except label locations: same
keepouts, and the labels agree pairwise on optimal, width, height, text. -/
@[reducible] def Layout.sameFixed (s t : Layout) : Prop :=
  t.keepouts = s.keepouts ∧
  t.labels.map Label.fixed_part = s.labels.map Label.fixed_part

/-- The scalar unknown with number `i`: the x (even `i`) or y (odd `i`)
coordinate of `labels[i / 2]`. -/
def Layout.getCoord (s : Layout) (i : ℕ) : ℚ :=
  if i % 2 = 0 then (s.labels.getD (i / 2) default).location.x
  else (s.labels.getD (i / 2) default).location.y

/-- Concrete one-label layout used as a witness input: the label sits away
from its anchor, so a move toward the anchor lowers the cost. -/
def layoutW : Layout :=
  { labels := [{ optimal := ⟨0, 0⟩, location := ⟨1, 0⟩, width := 0, height := 0,
                 text := "" }],
    keepouts := [] }

/-- The layout `layoutW` after the committed trial move of the inner loop
with direction `[-1, 0]` and movement `1`: the label lands on its anchor. -/
def layoutW1 : Layout :=
  { labels := [{ optimal := ⟨0, 0⟩, location := ⟨0, 0⟩, width := 0, height := 0,
                 text := "" }],
    keepouts := [] }

/-- Concrete one-label layout sitting exactly at its anchor: its gradient
is identically zero, so `anneal` stops in the first iteration. -/
def layoutZ : Layout :=
  { labels := [Label.make ⟨0, 0⟩ 0 0 ""], keepouts := [] }

/-! ### Theorems for the geometry claims -/

/-- C2: the five literal unit-test cases of `get_overlap` from the source
(each passes both asserts and returns the stated value). -/
theorem get_overlap_literal_cases :
    get_overlapChecked 0 1 2 3 = some 0 ∧
    get_overlapChecked 0 2 1 3 = some 1 ∧
    get_overlapChecked 0 10 8 10 = some 2 ∧
    get_overlapChecked 0 10 8 14 = some 2 ∧
    get_overlapChecked 0 10 2 8 = some 8 := by
  refine ⟨?_, ?_, ?_, ?_, ?_⟩ <;> norm_num [get_overlapChecked, get_overlap]

/-- C1 counterexample: at `a = 0, b = 10, c = 2, d = 8` (valid intervals,
and one of the source's own unit tests) the code returns `8`, while the
claimed formula `max(0, min(b,d) - max(a,c))` (the length of the
intersection of `[0,10]` and `[2,8]`) gives `6`. -/
theorem get_overlap_formula_counterexample :
    get_overlapChecked 0 10 2 8 ≠ some (max 0 (min (10 : ℚ) 8 - max 0 2)) := by
  norm_num [get_overlapChecked, get_overlap]

/-- C1 (amended): for valid intervals, `get_overlap(a,b,c,d)` equals
`max(0, min(b - c, d - a))`, the 1-D penetration depth; this coincides with
the intersection length `max(0, min(b,d) - max(a,c))` whenever neither
interval is strictly contained in the other. -/
theorem get_overlap_eq_intersection_length (a b c d : ℚ)
    (hab : a ≤ b) (hcd : c ≤ d)
    (h1 : ¬(c < a ∧ b < d)) (h2 : ¬(a < c ∧ d < b)) :
    get_overlapChecked a b c d = some (max 0 (min b d - max a c)) := by
  rw [get_overlapChecked, if_pos hab, if_pos hcd]
  rcases not_and_or.mp h1 with h1 | h1 <;> rcases not_and_or.mp h2 with h2 | h2 <;>
    rw [not_lt] at h1 h2 <;>
    · unfold get_overlap
      congr 1
      simp only [min_def, max_def]
      split_ifs <;> linarith

theorem get_overlap_eq_intersection_length_witness :
    get_overlapChecked 0 2 1 3 = some (max 0 (min (2 : ℚ) 3 - max 0 1)) :=
  get_overlap_eq_intersection_length 0 2 1 3 (by norm_num) (by norm_num)
    (by norm_num) (by norm_num)

/-- `get_overlap` is never negative. -/
theorem get_overlap_nonneg (a b c d : ℚ) : 0 ≤ get_overlap a b c d :=
  le_max_left 0 _

/-- C3: `Rectangle.overlap_with` is the minimum of the x-axis and y-axis
interval overlaps; it is 0 whenever the rectangles are disjoint on the x
axis or on the y axis; for two identical unit squares centered at the same
point it equals the side length 1; and on a concrete pair whose two axis
overlaps differ it returns the minimum (1), not the maximum (2) and not the
area. -/
theorem overlap_with_spec :
    (∀ r1 r2 : Rectangle, r1.overlap_with r2 =
        min (get_overlap r1.bottom_left.x r1.top_right.x
              r2.bottom_left.x r2.top_right.x)
            (get_overlap r1.bottom_left.y r1.top_right.y
              r2.bottom_left.y r2.top_right.y)) ∧
    (∀ r1 r2 : Rectangle,
        r1.top_right.x < r2.bottom_left.x ∨ r2.top_right.x < r1.bottom_left.x →
        r1.overlap_with r2 = 0) ∧
    (∀ r1 r2 : Rectangle,
        r1.top_right.y < r2.bottom_left.y ∨ r2.top_right.y < r1.bottom_left.y →
        r1.overlap_with r2 = 0) ∧
    (∀ p : Point2D,
        (Label.make p 1 1 "").get_rectangle.overlap_with
          (Label.make p 1 1 "").get_rectangle = 1) ∧
    ((Rectangle.mk ⟨0, 0⟩ ⟨2, 1⟩).overlap_with (Rectangle.mk ⟨0, 0⟩ ⟨2, 3⟩) = 1 ∧
      max (get_overlap (0 : ℚ) 2 0 2) (get_overlap (0 : ℚ) 1 0 3) = 2 ∧
      (1 : ℚ) ≠ 2) := by
  refine ⟨fun r1 r2 => rfl, ?_, ?_, ?_,
    by norm_num [Rectangle.overlap_with, get_overlap]⟩
  · intro r1 r2 h
    have hx : get_overlap r1.bottom_left.x r1.top_right.x
        r2.bottom_left.x r2.top_right.x = 0 := by
      unfold get_overlap
      rcases h with h | h
      · have : r1.top_right.x - r2.bottom_left.x < 0 := by linarith
        rw [max_eq_left]
        exact le_trans (min_le_left _ _) (le_of_lt this)
      · have : r2.top_right.x - r1.bottom_left.x < 0 := by linarith
        rw [max_eq_left]
        exact le_trans (min_le_right _ _) (le_of_lt this)
    unfold Rectangle.overlap_with
    rw [hx]
    exact min_eq_left (get_overlap_nonneg _ _ _ _)
  · intro r1 r2 h
    have hy : get_overlap r1.bottom_left.y r1.top_right.y
        r2.bottom_left.y r2.top_right.y = 0 := by
      unfold get_overlap
      rcases h with h | h
      · have : r1.top_right.y - r2.bottom_left.y < 0 := by linarith
        rw [max_eq_left]
        exact le_trans (min_le_left _ _) (le_of_lt this)
      · have : r2.top_right.y - r1.bottom_left.y < 0 := by linarith
        rw [max_eq_left]
        exact le_trans (min_le_right _ _) (le_of_lt this)
    unfold Rectangle.overlap_with
    rw [hy]
    exact min_eq_right (get_overlap_nonneg _ _ _ _)
  · intro p
    unfold Rectangle.overlap_with get_overlap Label.make Label.get_rectangle
    norm_num

theorem overlap_with_spec_witness :
    (Rectangle.mk ⟨0, 0⟩ ⟨1, 1⟩).overlap_with (Rectangle.mk ⟨5, 0⟩ ⟨6, 1⟩) = 0 ∧
    (Rectangle.mk ⟨0, 0⟩ ⟨1, 1⟩).overlap_with (Rectangle.mk ⟨0, 5⟩ ⟨1, 6⟩) = 0 :=
  ⟨overlap_with_spec.2.1 _ _ (Or.inl (by norm_num)),
   overlap_with_spec.2.2.1 _ _ (Or.inl (by norm_num))⟩

/-- C9 counterexample: the zero-width rectangle with `bottom_left = (0,0)`
and `top_right = (0,1)` satisfies `bottom_left.x ≤ top_right.x` and
`bottom_left.y ≤ top_right.y`, yet `is_empty` returns true, refuting the
claimed equivalence. -/
theorem is_empty_claim_counterexample :
    ¬ (((Rectangle.mk ⟨0, 0⟩ ⟨0, 1⟩).is_empty = false) ↔
        ((Rectangle.mk ⟨0, 0⟩ ⟨0, 1⟩).bottom_left.x ≤
            (Rectangle.mk ⟨0, 0⟩ ⟨0, 1⟩).top_right.x ∧
         (Rectangle.mk ⟨0, 0⟩ ⟨0, 1⟩).bottom_left.y ≤
            (Rectangle.mk ⟨0, 0⟩ ⟨0, 1⟩).top_right.y)) := by
  decide

/-- C9 (amended): `is_empty` returns false exactly when
`bottom_left.x < top_right.x` and `bottom_left.y < top_right.y`; the
rectangle is marked empty when `bottom_left ≥ top_right` on some axis, so a
zero-width or zero-height rectangle counts as empty. -/
theorem is_empty_iff_strict (r : Rectangle) :
    r.is_empty = false ↔
      r.bottom_left.x < r.top_right.x ∧ r.bottom_left.y < r.top_right.y := by
  simp [Rectangle.is_empty, not_le]

/-- C10: `get_overlap` fails an assertion exactly when `a > b` or `c > d`;
when `a ≤ b` and `c ≤ d` it returns normally with the computed value.  (The
embedding is a pure function: the source has no side effects beyond the
asserts.) -/
theorem get_overlap_assert_spec :
    (∀ a b c d : ℚ, get_overlapChecked a b c d = none ↔ (b < a ∨ d < c)) ∧
    (∀ a b c d : ℚ, a ≤ b → c ≤ d →
      get_overlapChecked a b c d = some (get_overlap a b c d)) := by
  constructor
  · intro a b c d
    unfold get_overlapChecked
    split_ifs with h1 h2
    · constructor
      · intro h
        simp at h
      · intro h
        rcases h with h | h
        · exact absurd h (not_lt.mpr h1)
        · exact absurd h (not_lt.mpr h2)
    · simp only [iff_true_intro (Or.inr (not_le.mp h2))]
    · simp only [iff_true_intro (Or.inl (not_le.mp h1))]
  · intro a b c d hab hcd
    rw [get_overlapChecked, if_pos hab, if_pos hcd]

theorem get_overlap_assert_spec_witness :
    get_overlapChecked 3 7 4 9 = some (get_overlap 3 7 4 9) :=
  get_overlap_assert_spec.2 3 7 4 9 (by norm_num) (by norm_num)

/-! ### Sum-reshaping lemmas for the cost function -/

theorem list_range_map_sum (n : ℕ) (f : ℕ → ℚ) :
    ((List.range n).map f).sum = ∑ i in Finset.range n, f i := by
  induction n with
  | zero => simp
  | succ n ih =>
      rw [List.range_succ, List.map_append, List.sum_append,
        Finset.sum_range_succ, ih]
      simp

theorem list_range'_map_sum (n : ℕ) : ∀ (s : ℕ) (f : ℕ → ℚ),
    ((List.range' s n).map f).sum = ∑ i in Finset.Ico s (s + n), f i := by
  induction n with
  | zero => simp
  | succ n ih =>
      intro s f
      have hb : s + (n + 1) = s + 1 + n := by omega
      rw [List.range'_succ, List.map_cons, List.sum_cons, ih (s + 1) f, hb,
        Finset.sum_eq_sum_Ico_succ_bot (show s < s + 1 + n by omega) f]

theorem range_filter_lt (n i : ℕ) :
    (Finset.range n).filter (fun j => i < j) = Finset.Ico (i + 1) n := by
  ext j
  simp only [Finset.mem_filter, Finset.mem_range, Finset.mem_Ico]
  omega

theorem sum_triangle (n : ℕ) (f : ℕ → ℕ → ℚ) :
    (∑ i in Finset.range n, ∑ j in Finset.Ico (i + 1) n, f i j)
      = ∑ p in (Finset.range n ×ˢ Finset.range n).filter (fun p => p.1 < p.2),
          f p.1 p.2 := by
  rw [Finset.sum_filter, Finset.sum_product]
  apply Finset.sum_congr rfl
  intro i _
  rw [← Finset.sum_filter, range_filter_lt]

/-- The label-label double loop `for i in range(n): for j in range(i+1, n)`
sums the same terms as the filtered set of ordered pairs `i < j`. -/
theorem triangle_loop_sum (n : ℕ) (g : ℕ → ℕ → ℚ) :
    ((List.range n).map (fun i =>
        ((List.range' (i + 1) (n - (i + 1))).map (fun j => g i j)).sum)).sum
      = ∑ p in (Finset.range n ×ˢ Finset.range n).filter (fun p => p.1 < p.2),
          g p.1 p.2 := by
  calc ((List.range n).map (fun i =>
          ((List.range' (i + 1) (n - (i + 1))).map (fun j => g i j)).sum)).sum
      = ∑ i in Finset.range n,
          ((List.range' (i + 1) (n - (i + 1))).map (fun j => g i j)).sum :=
        list_range_map_sum n _
    _ = ∑ i in Finset.range n, ∑ j in Finset.Ico (i + 1) n, g i j := by
        apply Finset.sum_congr rfl
        intro i hi
        rw [Finset.mem_range] at hi
        rw [list_range'_map_sum (n - (i + 1)) (i + 1) (fun j => g i j)]
        have hbn : i + 1 + (n - (i + 1)) = n := by omega
        rw [hbn]
    _ = ∑ p in (Finset.range n ×ˢ Finset.range n).filter (fun p => p.1 < p.2),
          g p.1 p.2 := sum_triangle n g

/-- The label-keepout double loop `for i in range(n): for j in range(m)`. -/
theorem product_loop_sum (n m : ℕ) (g : ℕ → ℕ → ℚ) :
    ((List.range n).map (fun i => ((List.range m).map (fun j => g i j)).sum)).sum
      = ∑ i in Finset.range n, ∑ j in Finset.range m, g i j := by
  rw [list_range_map_sum]
  apply Finset.sum_congr rfl
  intro i _
  exact list_range_map_sum m (fun j => g i j)

/-- C4: for every Layout, `get_cost` is the fidelity sum plus
`penalty_intersection` times squared overlap over every unordered label
pair `(i, j)` with `i < j` plus `penalty_keepout` times squared overlap
over every (label, keepout) pair, with the default weights 1000 and
1000000, keepout overlap being strictly more expensive. -/
theorem get_cost_eq_cost_spec :
    (∀ s : Layout, s.get_cost = s.cost_spec) ∧
    Layout.penalty_intersection = 1000 ∧
    Layout.penalty_keepout = 1000000 ∧
    Layout.penalty_intersection < Layout.penalty_keepout := by
  refine ⟨?_, rfl, rfl,
    by norm_num [Layout.penalty_intersection, Layout.penalty_keepout]⟩
  intro s
  unfold Layout.get_cost Layout.cost_spec
  have h2 := triangle_loop_sum s.labels.length (fun i j =>
    Layout.penalty_intersection *
      (Rectangle.overlap_with (s.labels.getD i default).get_rectangle
        (s.labels.getD j default).get_rectangle) ^ 2)
  have h3 := product_loop_sum s.labels.length s.keepouts.length (fun i j =>
    Layout.penalty_keepout *
      (Rectangle.overlap_with (s.labels.getD i default).get_rectangle
        (s.keepouts.getD j default).get_rectangle) ^ 2)
  rw [h2, h3]

/-! ### Lemmas about listModify, unknowns and coordinates -/

theorem length_listModify {α : Type} (f : α → α) : ∀ (n : ℕ) (ls : List α),
    (listModify f n ls).length = ls.length
  | _, [] => by simp [listModify]
  | 0, _ :: _ => rfl
  | n + 1, l :: ls => by simp [listModify, length_listModify f n ls]

theorem getD_listModify_eq {α : Type} (f : α → α) (d : α) :
    ∀ (n : ℕ) (ls : List α), n < ls.length →
      (listModify f n ls).getD n d = f (ls.getD n d)
  | n, [], h => by simp at h
  | 0, l :: ls, _ => rfl
  | n + 1, l :: ls, h => by
      simp only [listModify, List.getD_cons_succ]
      exact getD_listModify_eq f d n ls (by simpa using h)

theorem getD_listModify_ne {α : Type} (f : α → α) (d : α) :
    ∀ (n m : ℕ) (ls : List α), m ≠ n →
      (listModify f n ls).getD m d = ls.getD m d
  | _, _, [], _ => by simp [listModify]
  | 0, 0, _ :: _, h => absurd rfl h
  | 0, _ + 1, _ :: _, _ => by simp [listModify]
  | _ + 1, 0, _ :: _, _ => by simp [listModify]
  | n + 1, m + 1, l :: ls, h => by
      simp only [listModify, List.getD_cons_succ]
      exact getD_listModify_ne f d n m ls (by omega)

theorem getD_listModify_proj {α β : Type} (f : α → α) (g : α → β) (d : α)
    (hg : ∀ x, g (f x) = g x) :
    ∀ (n m : ℕ) (ls : List α),
      g ((listModify f n ls).getD m d) = g (ls.getD m d)
  | n, m, [] => by simp [listModify]
  | 0, 0, l :: ls => hg l
  | 0, m + 1, l :: ls => by simp [listModify]
  | n + 1, 0, l :: ls => by simp [listModify]
  | n + 1, m + 1, l :: ls => by
      simp only [listModify, List.getD_cons_succ]
      exact getD_listModify_proj f g d hg n m ls

theorem map_listModify {α β : Type} (f : α → α) (g : α → β)
    (hg : ∀ x, g (f x) = g x) :
    ∀ (n : ℕ) (ls : List α), (listModify f n ls).map g = ls.map g
  | _, [] => by simp [listModify]
  | 0, l :: ls => by simp [listModify, hg l]
  | n + 1, l :: ls => by simp [listModify, map_listModify f g hg n ls]

theorem length_unknowns_list : ∀ (ls : List Label),
    (ls.flatMap (fun label => [label.location.x, label.location.y])).length
      = 2 * ls.length
  | [] => rfl
  | l :: ls => by
      simp only [List.flatMap_cons, List.cons_append, List.nil_append,
        List.length_cons, length_unknowns_list ls]
      omega

theorem length_get_unknowns (s : Layout) :
    s.get_unknowns.length = 2 * s.labels.length := by
  simpa [Layout.get_unknowns] using length_unknowns_list s.labels

theorem getD_unknowns_list : ∀ (ls : List Label) (k : ℕ), k < ls.length →
    ((ls.flatMap (fun label => [label.location.x, label.location.y])).getD
        (2 * k) 0 = (ls.getD k default).location.x ∧
     (ls.flatMap (fun label => [label.location.x, label.location.y])).getD
        (2 * k + 1) 0 = (ls.getD k default).location.y)
  | [], k, h => by simp at h
  | l :: ls, 0, _ => by
      simp [List.flatMap_cons]
  | l :: ls, k + 1, h => by
      have h2 : 2 * (k + 1) = 2 * k + 1 + 1 := by omega
      rw [List.flatMap_cons, h2]
      simp only [List.cons_append, List.nil_append, List.getD_cons_succ,
        List.getD_cons_zero]
      exact getD_unknowns_list ls k (by simpa using h)

theorem get_unknowns_getD (s : Layout) (i : ℕ) (h : i < 2 * s.labels.length) :
    s.get_unknowns.getD i 0 = s.getCoord i := by
  rcases Nat.even_or_odd i with he | ho
  · obtain ⟨k, hk⟩ := he
    have hk2 : i = 2 * k := by omega
    subst hk2
    rw [Layout.getCoord, if_pos (by omega)]
    have hkl : k < s.labels.length := by omega
    have hx := (getD_unknowns_list s.labels k hkl).1
    rw [show 2 * k / 2 = k by omega]
    simpa [Layout.get_unknowns] using hx
  · obtain ⟨k, hk⟩ := ho
    subst hk
    rw [Layout.getCoord, if_neg (by omega)]
    have hkl : k < s.labels.length := by omega
    have hy := (getD_unknowns_list s.labels k hkl).2
    rw [show (2 * k + 1) / 2 = k by omega]
    simpa [Layout.get_unknowns] using hy

/-! ### How adjust and restore act on coordinates and fixed parts -/

theorem keepouts_adjust (s : Layout) (i : ℕ) (a : ℚ) :
    (s.adjust_unknown i a).keepouts = s.keepouts := by
  unfold Layout.adjust_unknown
  split_ifs <;> rfl

theorem keepouts_restore (s : Layout) (i : ℕ) (u : List ℚ) :
    (s.restore_unknown i u).keepouts = s.keepouts := by
  unfold Layout.restore_unknown
  split_ifs <;> rfl

theorem fixedMap_adjust (s : Layout) (i : ℕ) (a : ℚ) :
    (s.adjust_unknown i a).labels.map Label.fixed_part
      = s.labels.map Label.fixed_part := by
  unfold Layout.adjust_unknown
  split_ifs
  · exact map_listModify (fun l => l.addX a) Label.fixed_part (fun l => rfl)
      (i / 2) s.labels
  · exact map_listModify (fun l => l.addY a) Label.fixed_part (fun l => rfl)
      (i / 2) s.labels

theorem fixedMap_restore (s : Layout) (i : ℕ) (u : List ℚ) :
    (s.restore_unknown i u).labels.map Label.fixed_part
      = s.labels.map Label.fixed_part := by
  unfold Layout.restore_unknown
  split_ifs
  · exact map_listModify (fun l => l.setX (u.getD i 0)) Label.fixed_part
      (fun l => rfl) (i / 2) s.labels
  · exact map_listModify (fun l => l.setY (u.getD i 0)) Label.fixed_part
      (fun l => rfl) (i / 2) s.labels

theorem labels_length_adjust (s : Layout) (i : ℕ) (a : ℚ) :
    (s.adjust_unknown i a).labels.length = s.labels.length := by
  unfold Layout.adjust_unknown
  split_ifs <;> exact length_listModify _ _ _

theorem labels_length_restore (s : Layout) (i : ℕ) (u : List ℚ) :
    (s.restore_unknown i u).labels.length = s.labels.length := by
  unfold Layout.restore_unknown
  split_ifs <;> exact length_listModify _ _ _

theorem getCoord_adjust_self (s : Layout) (i : ℕ) (a : ℚ)
    (h : i < 2 * s.labels.length) :
    (s.adjust_unknown i a).getCoord i = s.getCoord i + a := by
  unfold Layout.adjust_unknown Layout.getCoord
  by_cases hp : i % 2 = 0
  · rw [if_pos hp, if_pos hp, if_pos hp, getD_listModify_eq _ _ _ _ (by omega)]
    rfl
  · rw [if_neg hp, if_neg hp, if_neg hp, getD_listModify_eq _ _ _ _ (by omega)]
    rfl

theorem getCoord_adjust_ne (s : Layout) (i j : ℕ) (a : ℚ) (hne : j ≠ i) :
    (s.adjust_unknown i a).getCoord j = s.getCoord j := by
  unfold Layout.adjust_unknown Layout.getCoord
  by_cases hpi : i % 2 = 0
  · rw [if_pos hpi]
    by_cases hpj : j % 2 = 0
    · rw [if_pos hpj, if_pos hpj]
      by_cases hk : j / 2 = i / 2
      · exact absurd (by omega : j = i) hne
      · rw [getD_listModify_ne _ _ _ _ _ hk]
    · rw [if_neg hpj, if_neg hpj]
      exact getD_listModify_proj (fun l => l.addX a)
        (fun l => l.location.y) default (fun x => rfl) (i / 2) (j / 2) s.labels
  · rw [if_neg hpi]
    by_cases hpj : j % 2 = 0
    · rw [if_pos hpj, if_pos hpj]
      exact getD_listModify_proj (fun l => l.addY a)
        (fun l => l.location.x) default (fun x => rfl) (i / 2) (j / 2) s.labels
    · rw [if_neg hpj, if_neg hpj]
      by_cases hk : j / 2 = i / 2
      · exact absurd (by omega : j = i) hne
      · rw [getD_listModify_ne _ _ _ _ _ hk]

theorem getCoord_restore_self (s : Layout) (i : ℕ) (u : List ℚ)
    (h : i < 2 * s.labels.length) :
    (s.restore_unknown i u).getCoord i = u.getD i 0 := by
  unfold Layout.restore_unknown Layout.getCoord
  by_cases hp : i % 2 = 0
  · rw [if_pos hp, if_pos hp, getD_listModify_eq _ _ _ _ (by omega)]
    rfl
  · rw [if_neg hp, if_neg hp, getD_listModify_eq _ _ _ _ (by omega)]
    rfl

theorem getCoord_restore_ne (s : Layout) (i j : ℕ) (u : List ℚ) (hne : j ≠ i) :
    (s.restore_unknown i u).getCoord j = s.getCoord j := by
  unfold Layout.restore_unknown Layout.getCoord
  by_cases hpi : i % 2 = 0
  · rw [if_pos hpi]
    by_cases hpj : j % 2 = 0
    · rw [if_pos hpj, if_pos hpj]
      by_cases hk : j / 2 = i / 2
      · exact absurd (by omega : j = i) hne
      · rw [getD_listModify_ne _ _ _ _ _ hk]
    · rw [if_neg hpj, if_neg hpj]
      exact getD_listModify_proj (fun l => l.setX (u.getD i 0))
        (fun l => l.location.y) default (fun x => rfl) (i / 2) (j / 2) s.labels
  · rw [if_neg hpi]
    by_cases hpj : j % 2 = 0
    · rw [if_pos hpj, if_pos hpj]
      exact getD_listModify_proj (fun l => l.setY (u.getD i 0))
        (fun l => l.location.x) default (fun x => rfl) (i / 2) (j / 2) s.labels
    · rw [if_neg hpj, if_neg hpj]
      by_cases hk : j / 2 = i / 2
      · exact absurd (by omega : j = i) hne
      · rw [getD_listModify_ne _ _ _ _ _ hk]

/-! ### Extensionality: a layout is determined by keepouts, fixed parts and
coordinates -/

theorem label_eq_of_parts (l1 l2 : Label)
    (hf : l1.fixed_part = l2.fixed_part)
    (hx : l1.location.x = l2.location.x)
    (hy : l1.location.y = l2.location.y) : l1 = l2 := by
  cases l1 with
  | mk o1 loc1 w1 h1 t1 =>
    cases l2 with
    | mk o2 loc2 w2 h2 t2 =>
      cases loc1
      cases loc2
      simp only [Label.fixed_part, Prod.mk.injEq] at hf
      simp only at hx hy
      obtain ⟨e1, e2, e3, e4⟩ := hf
      subst e1; subst e2; subst e3; subst e4; subst hx; subst hy
      rfl

theorem layout_ext (s t : Layout)
    (hk : s.keepouts = t.keepouts)
    (hf : s.labels.map Label.fixed_part = t.labels.map Label.fixed_part)
    (hc : ∀ i, i < 2 * t.labels.length → s.getCoord i = t.getCoord i) :
    s = t := by
  have hlen : s.labels.length = t.labels.length := by
    have h := congrArg List.length hf
    simpa using h
  have hlabels : s.labels = t.labels := by
    apply List.ext_get hlen
    intro n h1 h2
    have hfp : Label.fixed_part (s.labels.get ⟨n, h1⟩)
        = Label.fixed_part (t.labels.get ⟨n, h2⟩) := by
      have e1 := congrArg (fun l => l.get? n) hf
      simp only [List.get?_map] at e1
      rw [List.get?_eq_get h1, List.get?_eq_get h2] at e1
      simpa using e1
    have hgx : s.getCoord (2 * n) = t.getCoord (2 * n) := hc (2 * n) (by omega)
    have hgy : s.getCoord (2 * n + 1) = t.getCoord (2 * n + 1) :=
      hc (2 * n + 1) (by omega)
    rw [Layout.getCoord, Layout.getCoord, if_pos (by omega : 2 * n % 2 = 0),
      if_pos (by omega : 2 * n % 2 = 0), show 2 * n / 2 = n by omega,
      List.getD_eq_get _ _ h1, List.getD_eq_get _ _ h2] at hgx
    rw [Layout.getCoord, Layout.getCoord,
      if_neg (by omega : ¬(2 * n + 1) % 2 = 0),
      if_neg (by omega : ¬(2 * n + 1) % 2 = 0),
      show (2 * n + 1) / 2 = n by omega,
      List.getD_eq_get _ _ h1, List.getD_eq_get _ _ h2] at hgy
    exact label_eq_of_parts _ _ hfp hgx hgy
  cases s
  cases t
  simp only at hk hlabels
  rw [hk, hlabels]

/-! ### Restoring after adjusting recovers the state exactly -/

theorem restore_adjust (s : Layout) (i : ℕ) (a : ℚ)
    (h : i < 2 * s.labels.length) :
    (s.adjust_unknown i a).restore_unknown i s.get_unknowns = s := by
  apply layout_ext
  · rw [keepouts_restore, keepouts_adjust]
  · rw [fixedMap_restore, fixedMap_adjust]
  · intro j hj
    by_cases hij : j = i
    · subst hij
      rw [getCoord_restore_self _ _ _ (by rw [labels_length_adjust]; omega),
        get_unknowns_getD s j h]
    · rw [getCoord_restore_ne _ _ _ _ hij, getCoord_adjust_ne _ _ _ _ hij]

/-! ### Only label locations ever change -/

theorem sameFixed_refl (s : Layout) : s.sameFixed s := ⟨rfl, rfl⟩

theorem sameFixed_trans {s t u : Layout} (h1 : s.sameFixed t)
    (h2 : t.sameFixed u) : s.sameFixed u :=
  ⟨h2.1.trans h1.1, h2.2.trans h1.2⟩

theorem sameFixed_adjust (s : Layout) (i : ℕ) (a : ℚ) :
    s.sameFixed (s.adjust_unknown i a) :=
  ⟨keepouts_adjust s i a, fixedMap_adjust s i a⟩

theorem sameFixed_restore (s : Layout) (i : ℕ) (u : List ℚ) :
    s.sameFixed (s.restore_unknown i u) :=
  ⟨keepouts_restore s i u, fixedMap_restore s i u⟩

theorem sameFixed_labels_length {s t : Layout} (h : s.sameFixed t) :
    t.labels.length = s.labels.length := by
  have h2 := congrArg List.length h.2
  simpa using h2

theorem sameFixed_foldl (f : Layout → ℕ → Layout)
    (hf : ∀ (s : Layout) (i : ℕ), s.sameFixed (f s i)) :
    ∀ (l : List ℕ) (s : Layout), s.sameFixed (l.foldl f s) := by
  intro l
  induction l with
  | nil => exact fun s => sameFixed_refl s
  | cons i l ih => exact fun s => sameFixed_trans (hf s i) (ih (f s i))

theorem sameFixed_adjust_all (s : Layout) (u d : List ℚ) (m : ℚ) :
    s.sameFixed (s.adjust_all u d m) :=
  sameFixed_foldl _ (fun s i => sameFixed_adjust s i _) _ s

theorem sameFixed_restore_all (s : Layout) (u : List ℚ) :
    s.sameFixed (s.restore_all u) :=
  sameFixed_foldl _ (fun s i => sameFixed_restore s i u) _ s

theorem sameFixed_dcost_fold (u : List ℚ) :
    ∀ (l : List ℕ) (acc : Layout × List ℚ),
      acc.1.sameFixed ((l.foldl (fun acc i =>
        let s1 := acc.1.adjust_unknown i Layout.delta
        let pos_cost := s1.get_cost
        let s2 := s1.restore_unknown i u
        let s3 := s2.adjust_unknown i (-Layout.delta)
        let neg_cost := s3.get_cost
        let s4 := s3.restore_unknown i u
        (s4, acc.2 ++ [(pos_cost - neg_cost) / (2 * Layout.delta)])) acc).1)
  | [], acc => sameFixed_refl acc.1
  | i :: l, acc => by
      rw [List.foldl_cons]
      refine sameFixed_trans ?_ (sameFixed_dcost_fold u l _)
      exact sameFixed_trans (sameFixed_adjust _ _ _)
        (sameFixed_trans (sameFixed_restore _ _ _)
          (sameFixed_trans (sameFixed_adjust _ _ _) (sameFixed_restore _ _ _)))

theorem sameFixed_dcost_loop (s : Layout) (u : List ℚ) :
    s.sameFixed ((s.dcost_loop u).1) :=
  sameFixed_dcost_fold u (List.range (s.labels.length * 2)) (s, [])

theorem sameFixed_move_loop :
    ∀ (fuel : ℕ) (s : Layout) (u d : List ℚ) (c m : ℚ) (r : MoveResult),
      Layout.move_loop fuel s u d c m = some r → s.sameFixed r.state
  | 0, s, u, d, c, m, r, h => by simp [Layout.move_loop] at h
  | fuel + 1, s, u, d, c, m, r, h => by
      simp only [Layout.move_loop] at h
      split_ifs at h with h1 h2
      · obtain rfl := Option.some.inj h
        exact sameFixed_trans (sameFixed_adjust_all s u d m)
          (sameFixed_restore_all _ u)
      · have ih := sameFixed_move_loop fuel ((s.adjust_all u d m).restore_all u)
          u d c (m * Layout.movement_cutback) r h
        exact sameFixed_trans
          (sameFixed_trans (sameFixed_adjust_all s u d m)
            (sameFixed_restore_all _ u)) ih
      · obtain rfl := Option.some.inj h
        exact sameFixed_adjust_all s u d m

theorem sameFixed_anneal_iter (sqrtQ : ℚ → ℚ) (innerFuel : ℕ) :
    ∀ (remaining iteration : ℕ) (s : Layout) (m : ℚ) (dv : List (List ℚ))
      (s2 : Layout),
      Layout.anneal_iter sqrtQ innerFuel remaining iteration s m dv = some s2 →
      s.sameFixed s2
  | 0, _, s, m, dv, s2, h => by
      simp only [Layout.anneal_iter] at h
      obtain rfl := Option.some.inj h
      exact sameFixed_refl s
  | remaining + 1, it, s, m, dv, s2, h => by
      simp only [Layout.anneal_iter] at h
      by_cases h1 : sqrtQ (sumSq (s.dcost_loop s.get_unknowns).2) = 0
      · rw [if_pos h1] at h
        obtain rfl := Option.some.inj h
        exact sameFixed_dcost_loop s _
      · rw [if_neg h1] at h
        split at h
        · exact absurd h (by simp)
        · rename_i s3 m3 heq
          by_cases h3 : m3 ≤ Layout.min_movement
          · rw [if_pos h3] at h
            obtain rfl := Option.some.inj h
            exact sameFixed_trans (sameFixed_dcost_loop s _)
              (sameFixed_move_loop _ _ _ _ _ _ _ heq)
          · rw [if_neg h3] at h
            have ih := sameFixed_anneal_iter sqrtQ innerFuel remaining
              (it + 1) s3 m3 _ s2 h
            exact sameFixed_trans
              (sameFixed_trans (sameFixed_dcost_loop s _)
                (sameFixed_move_loop _ _ _ _ _ _ _ heq)) ih
        · rename_i s3 heq
          by_cases h3 : (0 : ℚ) ≤ Layout.min_movement
          · rw [if_pos h3] at h
            obtain rfl := Option.some.inj h
            exact sameFixed_trans (sameFixed_dcost_loop s _)
              (sameFixed_move_loop _ _ _ _ _ _ _ heq)
          · rw [if_neg h3] at h
            have ih := sameFixed_anneal_iter sqrtQ innerFuel remaining
              (it + 1) s3 0 _ s2 h
            exact sameFixed_trans
              (sameFixed_trans (sameFixed_dcost_loop s _)
                (sameFixed_move_loop _ _ _ _ _ _ _ heq)) ih

/-! ### The gradient loop: exact value and exact state restoration -/

theorem dcost_fold_form (s : Layout) :
    ∀ (m : ℕ), m ≤ s.labels.length * 2 → ∀ (acc : List ℚ),
      ((List.range m).foldl (fun acc i =>
          let s1 := acc.1.adjust_unknown i Layout.delta
          let pos_cost := s1.get_cost
          let s2 := s1.restore_unknown i s.get_unknowns
          let s3 := s2.adjust_unknown i (-Layout.delta)
          let neg_cost := s3.get_cost
          let s4 := s3.restore_unknown i s.get_unknowns
          (s4, acc.2 ++ [(pos_cost - neg_cost) / (2 * Layout.delta)]))
        (s, acc))
        = (s, acc ++ (List.range m).map (fun i =>
            ((s.adjust_unknown i Layout.delta).get_cost
              - (s.adjust_unknown i (-Layout.delta)).get_cost)
              / (2 * Layout.delta)))
  | 0, _, acc => by simp
  | m + 1, hm, acc => by
      rw [List.range_succ, List.foldl_append,
        dcost_fold_form s m (by omega) acc]
      have hr1 : (s.adjust_unknown m Layout.delta).restore_unknown m
          s.get_unknowns = s := restore_adjust s m Layout.delta (by omega)
      have hr2 : (s.adjust_unknown m (-Layout.delta)).restore_unknown m
          s.get_unknowns = s := restore_adjust s m (-Layout.delta) (by omega)
      simp only [List.foldl_cons, List.foldl_nil, hr1, hr2, List.map_append,
        List.map_cons, List.map_nil, List.append_assoc]

theorem dcost_loop_form (s : Layout) :
    s.dcost_loop s.get_unknowns
      = (s, (List.range (s.labels.length * 2)).map (fun i =>
          ((s.adjust_unknown i Layout.delta).get_cost
            - (s.adjust_unknown i (-Layout.delta)).get_cost)
            / (2 * Layout.delta))) := by
  have h := dcost_fold_form s (s.labels.length * 2) (le_refl _) []
  simpa [Layout.dcost_loop] using h

theorem getD_map_range (m i : ℕ) (f : ℕ → ℚ) (h : i < m) :
    ((List.range m).map f).getD i 0 = f i := by
  rw [List.getD_eq_getElem _ _ (by simpa using h)]
  simp

/-! ### restore_all rebuilds the snapshot state -/

theorem restore_fold_coords (s t : Layout)
    (hk : t.keepouts = s.keepouts)
    (hf : t.labels.map Label.fixed_part = s.labels.map Label.fixed_part) :
    ∀ (m : ℕ), m ≤ 2 * s.labels.length →
      (((List.range m).foldl
          (fun st i => st.restore_unknown i s.get_unknowns) t).keepouts
          = s.keepouts ∧
       ((List.range m).foldl
          (fun st i => st.restore_unknown i s.get_unknowns) t).labels.map
          Label.fixed_part = s.labels.map Label.fixed_part ∧
       ∀ j, j < m →
        ((List.range m).foldl
          (fun st i => st.restore_unknown i s.get_unknowns) t).getCoord j
          = s.get_unknowns.getD j 0)
  | 0, _ => by
      refine ⟨by simpa using hk, by simpa using hf, ?_⟩
      intro j hj
      omega
  | m + 1, hm => by
      have ih := restore_fold_coords s t hk hf m (by omega)
      rw [List.range_succ, List.foldl_append]
      set R := (List.range m).foldl
        (fun st i => st.restore_unknown i s.get_unknowns) t with hR
      have hlen : R.labels.length = s.labels.length := by
        have h2 := congrArg List.length ih.2.1
        simpa using h2
      refine ⟨?_, ?_, ?_⟩
      · simp only [List.foldl_cons, List.foldl_nil, keepouts_restore]
        exact ih.1
      · simp only [List.foldl_cons, List.foldl_nil, fixedMap_restore]
        exact ih.2.1
      · intro j hj
        simp only [List.foldl_cons, List.foldl_nil]
        by_cases hjm : j = m
        · subst hjm
          rw [getCoord_restore_self _ _ _ (by omega)]
        · rw [getCoord_restore_ne _ _ _ _ hjm]
          exact ih.2.2 j (by omega)

theorem restore_all_eq (s t : Layout)
    (hk : t.keepouts = s.keepouts)
    (hf : t.labels.map Label.fixed_part = s.labels.map Label.fixed_part) :
    t.restore_all s.get_unknowns = s := by
  have hlen : s.get_unknowns.length = 2 * s.labels.length :=
    length_get_unknowns s
  have h := restore_fold_coords s t hk hf (2 * s.labels.length) (le_refl _)
  unfold Layout.restore_all
  rw [hlen]
  apply layout_ext
  · exact h.1
  · exact h.2.1
  · intro j hj
    rw [h.2.2 j hj, get_unknowns_getD s j hj]

/-! ### Theorems for the solver claims -/

/-- C5: each gradient component computed inside `anneal` equals the central
difference `(cost(+delta) - cost(-delta)) / (2 delta)`, where each
perturbed cost is evaluated with all other unknowns held at their
committed values; and after the whole gradient loop the layout — in
particular every label location — is exactly the state it had before the
loop began. -/
theorem anneal_gradient_central_difference (s : Layout) (i : ℕ)
    (h : i < s.labels.length * 2) :
    (s.dcost_loop s.get_unknowns).2.getD i 0
      = ((s.adjust_unknown i Layout.delta).get_cost
          - (s.adjust_unknown i (-Layout.delta)).get_cost) / (2 * Layout.delta)
    ∧ (s.dcost_loop s.get_unknowns).1 = s := by
  rw [dcost_loop_form s]
  exact ⟨getD_map_range _ _ _ h, rfl⟩

theorem anneal_gradient_central_difference_witness :
    ((layoutW.dcost_loop layoutW.get_unknowns).2.getD 0 0
      = ((layoutW.adjust_unknown 0 Layout.delta).get_cost
          - (layoutW.adjust_unknown 0 (-Layout.delta)).get_cost)
          / (2 * Layout.delta)
    ∧ (layoutW.dcost_loop layoutW.get_unknowns).1 = layoutW) :=
  anneal_gradient_central_difference layoutW 0 (by decide)

/-- C6: whenever the inner loop of an `anneal` iteration returns, a
committed outcome has strictly lower cost than the iteration's starting
cost, and a restored outcome is exactly the starting state (equal cost);
so no committed step ever increases the cost and the cost is
non-increasing from the start to the end of every iteration. -/
theorem anneal_committed_step_decreases_cost (fuel : ℕ) (s : Layout)
    (dcost : List ℚ) (m : ℚ) (r : MoveResult)
    (h : Layout.move_loop fuel s s.get_unknowns dcost s.get_cost m = some r) :
    (∀ (s2 : Layout) (m2 : ℚ), r = MoveResult.committed s2 m2 →
      s2.get_cost < s.get_cost) ∧
    (∀ s2 : Layout, r = MoveResult.restored s2 → s2 = s) := by
  induction fuel generalizing m r with
  | zero => simp [Layout.move_loop] at h
  | succ fuel ih =>
      have hx : (s.adjust_all s.get_unknowns dcost m).restore_all
          s.get_unknowns = s :=
        restore_all_eq s _ (sameFixed_adjust_all s _ _ _).1
          (sameFixed_adjust_all s _ _ _).2
      simp only [Layout.move_loop] at h
      split_ifs at h with h1 h2
      · obtain rfl := Option.some.inj h
        refine ⟨?_, ?_⟩
        · intro s2 m2 hcm
          exact MoveResult.noConfusion hcm
        · intro s2 hcm
          injection hcm with he
          rw [← he]
          exact hx
      · rw [hx] at h
        exact ih (m * Layout.movement_cutback) r h
      · obtain rfl := Option.some.inj h
        refine ⟨?_, ?_⟩
        · intro s2 m2 hcm
          injection hcm with he1 he2
          rw [← he1]
          exact not_le.mp h1
        · intro s2 hcm
          exact MoveResult.noConfusion hcm

theorem anneal_committed_step_decreases_cost_witness :
    layoutW1.get_cost < layoutW.get_cost :=
  (anneal_committed_step_decreases_cost 1 layoutW [-1, 0] 1
      (MoveResult.committed layoutW1 1)
      (by
        have hadj : layoutW.adjust_all layoutW.get_unknowns [-1, 0] 1
            = layoutW1 := by
          norm_num [Layout.adjust_all, Layout.get_unknowns, layoutW, layoutW1,
            Layout.adjust_unknown, listModify, Label.addX, Label.addY,
            List.range_succ, List.foldl_cons, List.foldl_nil,
            List.getD_cons_zero, List.getD_cons_succ]
        have hc1 : layoutW.get_cost = 1 := by
          norm_num [Layout.get_cost, layoutW, Point2D.dist_sq,
            List.range_succ]
        have hc0 : layoutW1.get_cost = 0 := by
          norm_num [Layout.get_cost, layoutW1, Point2D.dist_sq,
            List.range_succ]
        simp only [Layout.move_loop, hadj, hc0, hc1]
        norm_num)).1
    layoutW1 1 rfl

/-- When the gradient norm of an `anneal` iteration is zero, the iteration
returns immediately with the state unchanged. -/
theorem anneal_iter_zero_norm (sqrtQ : ℚ → ℚ) (innerFuel r it : ℕ)
    (s : Layout) (m : ℚ) (dv : List (List ℚ))
    (h : sqrtQ (sumSq (s.dcost_loop s.get_unknowns).2) = 0) :
    Layout.anneal_iter sqrtQ innerFuel (r + 1) it s m dv = some s := by
  simp only [Layout.anneal_iter]
  rw [if_pos h, dcost_loop_form s]

/-- C7: if the gradient norm computed in an iteration of `anneal` is
exactly 0, the iteration loop terminates right there, reporting a local
minimum and returning the current state unchanged, before the gradient is
normalized to a unit direction — so the division by the gradient norm is
never executed with a zero divisor. -/
theorem anneal_zero_gradient_terminates (sqrtQ : ℚ → ℚ) (innerFuel r it : ℕ)
    (s : Layout) (m : ℚ) (dv : List (List ℚ))
    (h : sqrtQ (sumSq (s.dcost_loop s.get_unknowns).2) = 0) :
    Layout.anneal_iter sqrtQ innerFuel (r + 1) it s m dv = some s :=
  anneal_iter_zero_norm sqrtQ innerFuel r it s m dv h

/-- On `layoutZ` (one label sitting exactly at its anchor) the gradient is
identically zero. -/
theorem layoutZ_zero_gradient :
    sumSq (layoutZ.dcost_loop layoutZ.get_unknowns).2 = 0 := by
  rw [dcost_loop_form]
  norm_num [sumSq, layoutZ, Label.make, Layout.adjust_unknown, listModify,
    Label.addX, Label.addY, Layout.get_cost, Point2D.dist_sq, Layout.delta,
    List.range_succ, List.foldl_cons, List.foldl_nil, List.getD_cons_zero,
    List.getD_cons_succ]

theorem anneal_zero_gradient_terminates_witness :
    Layout.anneal_iter (fun x => x) 0 (99 + 1) 0 layoutZ (1 / 10) []
      = some layoutZ :=
  anneal_zero_gradient_terminates (fun x => x) 0 99 0 layoutZ (1 / 10) []
    (by simpa using layoutZ_zero_gradient)

/-- C8: a complete run of `anneal` (whenever it returns) leaves every
keepout — including its location — untouched and preserves every label's
optimal anchor, width, height and text, so only label locations are
mutated; moreover `get_unknowns` reads only the labels, so keepout
coordinates never appear in the unknown vector. -/
theorem anneal_mutates_only_locations (sqrtQ : ℚ → ℚ) (innerFuel : ℕ)
    (s s2 : Layout) (h : Layout.anneal sqrtQ innerFuel s = some s2) :
    s2.keepouts = s.keepouts ∧
    s2.labels.map Label.fixed_part = s.labels.map Label.fixed_part ∧
    (∀ (labels ks1 ks2 : List Label),
      Layout.get_unknowns ⟨labels, ks1⟩ = Layout.get_unknowns ⟨labels, ks2⟩) := by
  have hsf := sameFixed_anneal_iter sqrtQ innerFuel Layout.max_iteration_count
    0 s Layout.max_movement [] s2 h
  exact ⟨hsf.1, hsf.2, fun labels ks1 ks2 => rfl⟩

theorem anneal_mutates_only_locations_witness :
    layoutZ.keepouts = layoutZ.keepouts ∧
    layoutZ.labels.map Label.fixed_part = layoutZ.labels.map Label.fixed_part ∧
    (∀ (labels ks1 ks2 : List Label),
      Layout.get_unknowns ⟨labels, ks1⟩ = Layout.get_unknowns ⟨labels, ks2⟩) :=
  anneal_mutates_only_locations (fun x => x) 0 layoutZ layoutZ
    (by
      show Layout.anneal_iter (fun x => x) 0 Layout.max_iteration_count 0
        layoutZ Layout.max_movement [] = some layoutZ
      exact anneal_iter_zero_norm (fun x => x) 0 99 0 layoutZ
        Layout.max_movement [] (by simpa using layoutZ_zero_gradient))
